import Mathlib

/- Shallow embedding of the ThomasGames leaderboard engine:
   the browser module src/leaderboard.js and the AWS Lambda backend
   src/amplify/backend/function/leaderboardApi/index.js.
   Scores and timestamps are modelled as Int, JS arrays as List,
   JS objects (string-keyed maps) as ordered association lists,
   and the per-category DynamoDB table as a map from rank to item. -/

namespace ThomasGames

/-- Maximum retained entries per category (MAX_ENTRIES in both files). -/
def MAX_ENTRIES : Nat := 10

/-- Browser game configuration value (the GAMES object in src/leaderboard.js). -/
structure Game where
  name : String
  scoreType : String
  metric : String
  icon : String
deriving DecidableEq

/-- The GAMES configuration object of src/leaderboard.js (insertion order kept). -/
def GAMES : List (String × Game) :=
  [ ("pong", ⟨"Pong", "high", "wins", "P"⟩),
    ("flappy-bird", ⟨"Flappy Bird", "high", "score", "F"⟩),
    ("snake", ⟨"Snake", "high", "score", "S"⟩),
    ("rooftop-snipers", ⟨"Rooftop Rumble", "high", "wins", "R"⟩),
    ("chess", ⟨"Chess", "high", "wins", "C"⟩),
    ("city-runner", ⟨"City Runner", "high", "meters", "Y"⟩),
    ("retro-football", ⟨"Retro Football", "high", "points", "B"⟩),
    ("bedtime-berzerk", ⟨"Bedtime Berzerk", "low", "time", "Z"⟩),
    ("homerun-derby", ⟨"Homerun Derby", "high", "feet", "H"⟩) ]

/-- Lookup in an ordered string-keyed association list (JS object property read). -/
def alookup (l : List (String × β)) (k : String) : Option β :=
  (l.find? (fun kv => kv.1 == k)).map (fun kv => kv.2)

/-- JS object property assignment: update the key in place, or append it. -/
def aset : List (String × β) → String → β → List (String × β)
  | [], k, v => [(k, v)]
  | kv :: tl, k, v => if kv.1 == k then (k, v) :: tl else kv :: aset tl k v

/-- GAMES[gameId] in src/leaderboard.js. -/
def lookupGame (gameId : String) : Option Game :=
  alookup GAMES gameId

/-- A stored local-mirror entry {playerName, score, timestamp}. -/
structure Entry where
  playerName : String
  score : Int
  timestamp : Int
deriving DecidableEq

/-- The strict-beat condition of the getRank loop body in src/leaderboard.js:
    (scoreType is high and score > entry) or (scoreType is low and score < entry). -/
def beats (st : String) (s x : Int) : Bool :=
  (st == "high" && decide (s > x)) || (st == "low" && decide (s < x))

/-- Index of the first element whose score the new score strictly beats, as the
    scan loop shared by both getRank implementations computes it. -/
def firstBeat (st : String) (s : Int) (f : α → Int) : List α → Option Nat
  | [] => none
  | e :: tl =>
    if beats st s (f e) then some 0
    else (firstBeat st s f tl).map (fun i => i + 1)

/-- scoreQualifies of src/leaderboard.js: unknown game never qualifies; a
    non-full board always qualifies; a full board requires strictly beating the
    last (worst) entry under the game's score type. -/
def scoreQualifies (gameId : String) (score : Int) (leaderboard : List Entry) : Bool :=
  match lookupGame gameId with
  | none => false
  | some game =>
    if leaderboard.length < MAX_ENTRIES then true
    else
      match leaderboard[leaderboard.length - 1]? with
      | none => false
      | some worst =>
        if game.scoreType == "high" then decide (score > worst.score)
        else decide (score < worst.score)

/-- getRank of src/leaderboard.js: -1 for an unknown game; otherwise i+1 for the
    first strictly beaten entry i, else length+1 if below MAX_ENTRIES, else -1. -/
def getRank (gameId : String) (score : Int) (leaderboard : List Entry) : Int :=
  match lookupGame gameId with
  | none => -1
  | some game =>
    match firstBeat game.scoreType score Entry.score leaderboard with
    | some i => (i : Int) + 1
    | none =>
      if leaderboard.length < MAX_ENTRIES then (leaderboard.length : Int) + 1
      else -1

/-- JS leaderboard.splice(i, 0, e): insert e at index i (clamped to the end). -/
def spliceInsert (i : Nat) (e : α) (l : List α) : List α :=
  l.take i ++ e :: l.drop i

/-- The localStorage blob: mapping gameId to its ordered entry list. -/
abbrev LState := List (String × List Entry)

/-- The state initStorage writes on first use: every configured game maps to []. -/
def initialLeaderboards : LState :=
  GAMES.map (fun kv => (kv.1, ([] : List Entry)))

/-- Result object {qualified, rank} returned by the local submit path. -/
structure SubmitRes where
  qualified : Bool
  rank : Int
deriving DecidableEq

/-- localSubmitScore of src/leaderboard.js: reject unknown games and
    non-qualifying scores; otherwise splice the new entry in at rank-1,
    pop the last entry when the list exceeds MAX_ENTRIES, and store back.
    Date.now() is passed in as `now`. -/
def localSubmitScore (gameId playerName : String) (score now : Int)
    (leaderboards : LState) : SubmitRes × LState :=
  let leaderboard := (alookup leaderboards gameId).getD []
  match lookupGame gameId with
  | none => (⟨false, -1⟩, leaderboards)
  | some _ =>
    if scoreQualifies gameId score leaderboard then
      let rank := getRank gameId score leaderboard
      let newEntry : Entry := ⟨playerName, score, now⟩
      let inserted := spliceInsert (rank - 1).toNat newEntry leaderboard
      let trimmed := if MAX_ENTRIES < inserted.length then inserted.dropLast else inserted
      (⟨true, rank⟩, aset leaderboards gameId trimmed)
    else (⟨false, -1⟩, leaderboards)

/-- localGetAllLeaderboards of src/leaderboard.js: returns the stored mapping
    unchanged (no grouping, sorting or truncation happens on this path). -/
def localGetAllLeaderboards (leaderboards : LState) : LState :=
  leaderboards

/-- Game id used by the concrete scenarios below. -/
def snakeId : String := "snake"

/-- The browser configuration record stored for snakeId. -/
def snakeGame : Game := ⟨"Snake", "high", "score", "S"⟩

/-- Score-type string shared by the concrete scenarios. -/
def hiType : String := "high"

/-- Player name used in concrete submissions. -/
def subName : String := "NEW"

/-- An 11-character player name. -/
def longName : String := "ABCDEFGHIJK"

/-- A full (10-entry) HigherIsBetter local leaderboard, scores 100 down to 10. -/
def fullBoard : List Entry :=
  [⟨"a", 100, 0⟩, ⟨"b", 90, 0⟩, ⟨"c", 80, 0⟩, ⟨"d", 70, 0⟩, ⟨"e", 60, 0⟩,
   ⟨"f", 50, 0⟩, ⟨"g", 40, 0⟩, ⟨"h", 30, 0⟩, ⟨"i", 20, 0⟩, ⟨"j", 10, 0⟩]

/-- Local store holding the full board under the snake key. -/
def fullState : LState := [(snakeId, fullBoard)]

/-- A three-entry board containing a score of 90. -/
def tieBoard : List Entry := [⟨"a", 100, 0⟩, ⟨"b", 90, 0⟩, ⟨"c", 80, 0⟩]

/-- Local store holding the tie board under the snake key. -/
def tieState : LState := [(snakeId, tieBoard)]

/-- A four-entry board (more than the display limit of 3). -/
def fourBoard : List Entry :=
  [⟨"a", 100, 0⟩, ⟨"b", 90, 0⟩, ⟨"c", 80, 0⟩, ⟨"d", 70, 0⟩]

/-- Local store holding the four-entry board under the snake key. -/
def c9State : LState := [(snakeId, fourBoard)]

/-- Response object of the Lambda submitScore, as seen via response.json():
    {qualified, rank} with an optional error field. -/
structure LambdaRes where
  qualified : Bool
  rank : Int
  error : Option String
deriving DecidableEq

namespace Lambda

/-- Lambda-side game configuration value (the GAMES object in index.js). -/
structure LGame where
  scoreType : String
deriving DecidableEq

/-- The GAMES configuration object of index.js (8 games, no homerun-derby). -/
def GAMES : List (String × LGame) :=
  [ ("pong", ⟨"high"⟩),
    ("flappy-bird", ⟨"high"⟩),
    ("snake", ⟨"high"⟩),
    ("rooftop-snipers", ⟨"high"⟩),
    ("chess", ⟨"high"⟩),
    ("city-runner", ⟨"high"⟩),
    ("retro-football", ⟨"high"⟩),
    ("bedtime-berzerk", ⟨"low"⟩) ]

/-- GAMES[gameId] in index.js. -/
def lookupGame (gameId : String) : Option LGame :=
  alookup GAMES gameId

/-- A DynamoDB leaderboard item, keyed by (gameId, rank). -/
structure REntry where
  gameId : String
  rank : Nat
  playerName : String
  score : Int
  timestamp : Int
  scoreType : String
deriving DecidableEq

/-- getRank of index.js: a non-full leaderboard falls through to length+1,
    a full one to -1; both branches scan for the first strictly beaten entry. -/
def getRank (scoreType : String) (score : Int) (leaderboard : List REntry) : Int :=
  if leaderboard.length < MAX_ENTRIES then
    match firstBeat scoreType score REntry.score leaderboard with
    | some i => (i : Int) + 1
    | none => (leaderboard.length : Int) + 1
  else
    match firstBeat scoreType score REntry.score leaderboard with
    | some i => (i : Int) + 1
    | none => -1

/-- A single DynamoDB write issued by submitScore: a PutCommand keyed at
    item.rank, or a DeleteCommand at a rank key. -/
inductive Op
  | put (rank : Nat) (item : REntry)
  | delete (rank : Nat)
deriving DecidableEq

/-- The write submitScore issues for one displaced entry: rewrite it at
    rank+1 while that stays within MAX_ENTRIES, otherwise delete it. -/
def shiftOp (e : REntry) : Op :=
  if e.rank < MAX_ENTRIES then Op.put (e.rank + 1) { e with rank := e.rank + 1 }
  else Op.delete e.rank

/-- Error message the Lambda returns for an unconfigured game. -/
def unknownGameMsg : String := "Unknown game"

/-- submitScore of index.js, acting on the snapshot returned by
    getLeaderboardWithRanks (entries of the category sorted by rank).
    Returns the HTTP result and the sequence of DynamoDB writes it issues,
    in order: one shiftOp per entry with rank >= the target rank taken in
    snapshot (ascending-rank) order, then the put of the new entry, then the
    defensive delete at rank MAX_ENTRIES+1. Date.now() is passed as `now`. -/
def submitScore (gameId playerName : String) (score now : Int)
    (leaderboard : List REntry) : LambdaRes × List Op :=
  match lookupGame gameId with
  | none => (⟨false, -1, some unknownGameMsg⟩, [])
  | some game =>
    let rank := getRank game.scoreType score leaderboard
    if rank == -1 then (⟨false, -1, none⟩, [])
    else
      let t := rank.toNat
      let newEntry : REntry :=
        ⟨gameId, t, playerName.take 10, score, now, game.scoreType⟩
      (⟨true, rank, none⟩,
        (leaderboard.filter (fun e => t ≤ e.rank)).map shiftOp
          ++ [Op.put t newEntry, Op.delete (MAX_ENTRIES + 1)])

/-- The per-category view of the DynamoDB table: which item sits at each rank. -/
abbrev Store := Nat → Option REntry

/-- Effect of one write on the per-category table. -/
def applyOp (f : Store) : Op → Store
  | Op.put r e => fun r' => if r' = r then some e else f r'
  | Op.delete r => fun r' => if r' = r then none else f r'

/-- Effect of a write sequence, first write applied first. -/
def applyOps (ops : List Op) (f : Store) : Store :=
  ops.foldl applyOp f

/-- The table contents corresponding to a consistent snapshot list. -/
def storeOfList (l : List REntry) : Store :=
  fun r => l.find? (fun e => e.rank == r)

/-- Entry payload without the addressing fields. -/
structure Payload where
  playerName : String
  score : Int
  timestamp : Int
deriving DecidableEq

/-- The item a payload occupies at a given rank of a category. -/
def entryAt (gameId st : String) (r : Nat) (p : Payload) : REntry :=
  ⟨gameId, r, p.playerName, p.score, p.timestamp, st⟩

/-- Items of one category carrying consecutive ranks a, a+1, ... -/
def denseFrom (gameId st : String) (a : Nat) : List Payload → List REntry
  | [] => []
  | p :: ps => entryAt gameId st a p :: denseFrom gameId st (a + 1) ps

/-- A consistent category snapshot: payloads at dense ranks 1..n. -/
def mkDense (gameId st : String) (ps : List Payload) : List REntry :=
  denseFrom gameId st 1 ps

/-- The table contents submitScore's write sequence leaves behind when run
    against a consistent dense snapshot ps with the new entry landing at rank
    t: ranks below t keep their items, rank t holds the new entry, each rank
    above t holds the item shifted up from the rank below, except that on a
    full board the item shifted to rank MAX_ENTRIES is destroyed by the late
    delete issued for the old bottom entry. -/
def expectedFinal (gameId st : String) (t : Nat) (nE : REntry)
    (ps : List Payload) : Store :=
  fun r =>
    if r = 0 then none
    else if r = t then some nE
    else if r < t then (ps[r - 1]?).map (entryAt gameId st r)
    else if r ≤ ps.length + 1 ∧ r ≤ MAX_ENTRIES ∧
        ¬(ps.length = MAX_ENTRIES ∧ r = MAX_ENTRIES) then
      (ps[r - 2]?).map (entryAt gameId st r)
    else none

/-- Projection applied before returning items to the client. -/
def proj (e : REntry) : Payload :=
  ⟨e.playerName, e.score, e.timestamp⟩

/-- One step of the grouping loop of getAllLeaderboards: push the scanned item
    onto its game's group, creating the group if it is absent. -/
def pushItem (res : List (String × List REntry)) (item : REntry) :
    List (String × List REntry) :=
  match alookup res item.gameId with
  | none => res ++ [(item.gameId, [item])]
  | some v => aset res item.gameId (v ++ [item])

/-- The sort-by-rank comparator pass of getAllLeaderboards (a stable sort on
    the comparator a.rank - b.rank). -/
def sortByRank (l : List REntry) : List REntry :=
  l.insertionSort (fun a b => a.rank ≤ b.rank)

/-- getAllLeaderboards of index.js over the items returned by the table scan:
    initialize every configured game to an empty group, fold the scanned items
    into groups, then sort each group by rank, keep the top 3 and project. -/
def getAllLeaderboards (items : List REntry) : List (String × List Payload) :=
  let start := GAMES.map (fun kv => (kv.1, ([] : List REntry)))
  let grouped := items.foldl pushItem start
  grouped.map (fun kv => (kv.1, ((sortByRank kv.2).take 3).map proj))

/-- Payloads of the full remote snapshot, scores 100 down to 10. -/
def psTen : List Payload :=
  [⟨"a", 100, 0⟩, ⟨"b", 90, 0⟩, ⟨"c", 80, 0⟩, ⟨"d", 70, 0⟩, ⟨"e", 60, 0⟩,
   ⟨"f", 50, 0⟩, ⟨"g", 40, 0⟩, ⟨"h", 30, 0⟩, ⟨"i", 20, 0⟩, ⟨"j", 10, 0⟩]

/-- The full remote snapshot for the snake category at dense ranks 1..10. -/
def snapTen : List REntry := mkDense snakeId hiType psTen

/-- The Lambda configuration record stored for snakeId. -/
def lambdaSnake : LGame := ⟨"high"⟩

/-- Listing of a per-category table over the rank keys 1 .. MAX_ENTRIES + 1. -/
def listStore (f : Store) : List REntry :=
  (List.range' 1 (MAX_ENTRIES + 1)).filterMap f

/-- Kind (0 = put, 1 = delete) and rank key of one write. -/
def opSig : Op → Nat × Nat
  | Op.put r _ => (0, r)
  | Op.delete r => (1, r)

end Lambda

/-- apiSubmitScore of src/leaderboard.js. The remote POST outcome is passed in:
    some response when fetch succeeded with response.ok, none when it threw or
    was not ok. On failure the catch block falls back to localSubmitScore and
    returns its result (whose JSON object carries no error field). -/
def apiSubmitScore (remote : Option LambdaRes) (gameId playerName : String)
    (score now : Int) (st : LState) : LambdaRes × LState :=
  match remote with
  | some r => (r, st)
  | none =>
    let res := localSubmitScore gameId playerName score now st
    (⟨res.1.qualified, res.1.rank, none⟩, res.2)

/-- Whether a submit result reports a failure to the caller. -/
def signalsError (r : LambdaRes) : Bool :=
  r.error.isSome

/-- Ordering direction, as the spec names it. -/
inductive Direction
  | HigherIsBetter
  | LowerIsBetter
deriving DecidableEq

/-- Modelled from the spec: the strict-beat rule of section 4.1, strictly
    greater for HigherIsBetter and strictly lower for LowerIsBetter. -/
def specBeats (d : Direction) (s x : Int) : Bool :=
  match d with
  | Direction.HigherIsBetter => decide (s > x)
  | Direction.LowerIsBetter => decide (s < x)

/-- Modelled from the spec: first index of sortedEntries strictly beaten. -/
def specFirstBeat (d : Direction) (s : Int) : List Int → Option Nat
  | [] => none
  | x :: tl =>
    if specBeats d s x then some 0
    else (specFirstBeat d s tl).map (fun i => i + 1)

/-- Modelled from the spec, section 4.1: computeRank scans sortedEntries in
    rank order and returns i+1 for the first strictly beaten entry i; if none
    is beaten it returns len+1 below capacity and NOT_QUALIFIED (-1) when full. -/
def computeRank (d : Direction) (score : Int) (sortedEntries : List Int)
    (capacity : Nat) : Int :=
  match specFirstBeat d score sortedEntries with
  | some i => (i : Int) + 1
  | none =>
    if sortedEntries.length < capacity then (sortedEntries.length : Int) + 1
    else -1

/-- The direction a scoreType string denotes. -/
def dirOf (st : String) : Direction :=
  if st == "high" then Direction.HigherIsBetter else Direction.LowerIsBetter

/-- Weak ordering of a list under a score type: no later element strictly
    beats an earlier one (equal scores allowed, best first). -/
def WeakSortedBy (st : String) (f : α → Int) (l : List α) : Prop :=
  l.Pairwise (fun a b => beats st (f b) (f a) = false)

/-- Strict ordering of a list under a score type: every earlier element
    strictly beats every later one. -/
def StrictSortedBy (st : String) (f : α → Int) (l : List α) : Prop :=
  l.Pairwise (fun a b => beats st (f a) (f b) = true)

instance (st : String) (f : α → Int) (l : List α) :
    Decidable (WeakSortedBy st f l) := by
  unfold WeakSortedBy; infer_instance

instance (st : String) (f : α → Int) (l : List α) :
    Decidable (StrictSortedBy st f l) := by
  unfold StrictSortedBy; infer_instance

/-- A score never strictly beats itself. -/
theorem beats_irrefl (st : String) (a : Int) : beats st a a = false := by
  unfold beats
  by_cases h1 : st == "high" <;> by_cases h2 : st == "low" <;> simp [h1, h2]

/-- For a real score type, strict beating is asymmetric. -/
theorem beats_asymm (hst : st = "high" ∨ st = "low") (h : beats st s x = true) :
    beats st x s = false := by
  rcases hst with h1 | h1 <;> subst h1 <;> simp [beats] at h ⊢ <;> omega

/-- For a real score type, a score beating x also stays unbeaten by anything
    that fails to beat x. -/
theorem beats_shift (hst : st = "high" ∨ st = "low") (h1 : beats st s x = true)
    (h2 : beats st y x = false) : beats st y s = false := by
  rcases hst with h | h <;> subst h <;> simp [beats] at h1 h2 ⊢ <;> omega

/-- Failing to beat is transitive for a real score type. -/
theorem beats_not_trans (hst : st = "high" ∨ st = "low")
    (h1 : beats st b a = false) (h2 : beats st c b = false) :
    beats st c a = false := by
  rcases hst with h | h <;> subst h <;> simp [beats] at h1 h2 ⊢ <;> omega

/-- When the scan returns no index, no element is strictly beaten. -/
theorem firstBeat_none {f : α → Int} (h : firstBeat st s f l = none) :
    ∀ x ∈ l, beats st s (f x) = false := by
  induction l with
  | nil => intro x hx; cases hx
  | cons e tl ih =>
    intro x hx
    cases hb : beats st s (f e) with
    | true => simp [firstBeat, hb] at h
    | false =>
      simp only [firstBeat, hb, Bool.false_eq_true, if_false, Option.map_eq_none'] at h
      rcases List.mem_cons.mp hx with hx | hx
      · subst hx; exact hb
      · exact ih h x hx

/-- When some element is strictly beaten, the scan returns an index. -/
theorem firstBeat_isSome {f : α → Int} (x : α) (hx : x ∈ l)
    (hb : beats st s (f x) = true) : (firstBeat st s f l).isSome := by
  cases hfb : firstBeat st s f l with
  | some i => rfl
  | none => rw [firstBeat_none hfb x hx] at hb; cases hb

/-- The index returned by the scan is inside the list. -/
theorem firstBeat_lt {f : α → Int} (h : firstBeat st s f l = some i) :
    i < l.length := by
  induction l generalizing i with
  | nil => cases h
  | cons e tl ih =>
    cases hb : beats st s (f e) with
    | true =>
      simp [firstBeat, hb] at h
      simp only [List.length_cons]
      omega
    | false =>
      simp only [firstBeat, hb, Bool.false_eq_true, if_false, Option.map_eq_some'] at h
      rcases h with ⟨i', hi', hEq⟩
      have := ih hi'
      simp only [List.length_cons]
      omega

/-- The element at the returned index is strictly beaten. -/
theorem firstBeat_beat {f : α → Int} (h : firstBeat st s f l = some i) :
    ∃ x, l[i]? = some x ∧ beats st s (f x) = true := by
  induction l generalizing i with
  | nil => cases h
  | cons e tl ih =>
    cases hb : beats st s (f e) with
    | true =>
      simp [firstBeat, hb] at h
      subst h
      exact ⟨e, by simp, hb⟩
    | false =>
      simp only [firstBeat, hb, Bool.false_eq_true, if_false, Option.map_eq_some'] at h
      rcases h with ⟨i', hi', hEq⟩
      subst hEq
      rcases ih hi' with ⟨x, hx, hbx⟩
      exact ⟨x, by simpa using hx, hbx⟩

/-- Elements before the returned index are not strictly beaten. -/
theorem firstBeat_before {f : α → Int} (h : firstBeat st s f l = some i) :
    ∀ j, j < i → ∀ x, l[j]? = some x → beats st s (f x) = false := by
  induction l generalizing i with
  | nil => cases h
  | cons e tl ih =>
    intro j hj x hx
    cases hb : beats st s (f e) with
    | true =>
      simp [firstBeat, hb] at h
      omega
    | false =>
      simp only [firstBeat, hb, Bool.false_eq_true, if_false, Option.map_eq_some'] at h
      rcases h with ⟨i', hi', hEq⟩
      cases j with
      | zero => simp at hx; subst hx; exact hb
      | succ j' =>
        simp only [List.getElem?_cons_succ] at hx
        exact ih hi' j' (by omega) x hx

/-- Splicing in one element grows the list by exactly one. -/
theorem length_spliceInsert (i : Nat) (e : α) (l : List α) :
    (spliceInsert i e l).length = l.length + 1 := by
  simp [spliceInsert]
  omega

/-- Element lookup of a spliced list in terms of the original list. -/
theorem getElem?_spliceInsert (e : α) (l : List α) (hk : k ≤ l.length) (j : Nat) :
    (spliceInsert k e l)[j]? =
      if j < k then l[j]? else if j = k then some e else l[j - 1]? := by
  unfold spliceInsert
  have hlen : (l.take k).length = k := by simp; omega
  by_cases h1 : j < k
  · rw [List.getElem?_append_left (by omega), List.getElem?_take_of_lt h1]
    simp [h1]
  · rw [List.getElem?_append_right (by omega)]
    by_cases h2 : j = k
    · subst h2
      simp [hlen]
    · have h3 : j - (l.take k).length = (j - 1 - k) + 1 := by omega
      rw [h3]
      simp only [List.getElem?_cons_succ, List.getElem?_drop]
      have h4 : k + (j - 1 - k) = j - 1 := by omega
      rw [h4]
      simp [h1, h2]

/-- A prefix before the splice point is unchanged. -/
theorem take_spliceInsert (e : α) (l : List α) (hm : m ≤ k) (hk : k ≤ l.length) :
    (spliceInsert k e l).take m = l.take m := by
  unfold spliceInsert
  rw [List.take_append_eq_append_take]
  have h1 : m - (l.take k).length = 0 := by simp; omega
  rw [h1, List.take_take, List.take_zero, List.append_nil]
  congr 1
  omega

/-- Lookup after assignment at the same key. -/
theorem alookup_aset_self (s : List (String × β)) (k : String) (v : β) :
    alookup (aset s k v) k = some v := by
  induction s with
  | nil => simp [aset, alookup]
  | cons kv tl ih =>
    by_cases h : kv.1 == k
    · simp [aset, h, alookup]
    · simpa [aset, h, alookup, List.find?_cons, beq_iff_eq,
        (by simpa [beq_iff_eq] using h : ¬kv.1 = k)] using ih

/-- Lookup after assignment at a different key. -/
theorem alookup_aset_ne (s : List (String × β)) (h : k' ≠ k) :
    alookup (aset s k v) k' = alookup s k' := by
  have hkk : (k == k') = false := by
    simp only [beq_eq_false_iff_ne, ne_eq]
    intro h'
    exact h h'.symm
  induction s with
  | nil => simp [aset, alookup, List.find?_cons, hkk]
  | cons kv tl ih =>
    cases hk : (kv.1 == k) with
    | true =>
      have hkv : kv.1 = k := by simpa [beq_iff_eq] using hk
      simp [aset, hk, alookup, List.find?_cons, hkk, hkv]
    | false =>
      simp only [aset, hk, Bool.false_eq_true, if_false]
      simp only [alookup, List.find?_cons]
      cases hkv : (kv.1 == k') with
      | true => simp [hkv]
      | false => simpa [alookup, hkv] using ih

/-- Lookup distributes over appending when the key is found on the left. -/
theorem alookup_append_some (l1 l2 : List (String × β)) (h : alookup l1 k = some v) :
    alookup (l1 ++ l2) k = some v := by
  simp only [alookup, List.find?_append]
  rcases hf : l1.find? (fun kv => kv.1 == k) with _ | kv
  · simp [alookup, hf] at h
  · simp only [alookup, hf] at h
    simp [Option.or, h, hf]

/-- Lookup commutes with mapping the values of an association list. -/
theorem alookup_map_values (g : β → γ) (l : List (String × β)) (k : String) :
    alookup (l.map (fun kv => (kv.1, g kv.2))) k = (alookup l k).map g := by
  induction l with
  | nil => simp [alookup]
  | cons kv tl ih =>
    by_cases h : kv.1 == k
    · simp [alookup, List.find?_cons, h]
    · simpa [alookup, List.find?_cons, h] using ih

/-- Dropping the last element keeps weak ordering. -/
theorem weakSorted_dropLast {f : α → Int} (hw : WeakSortedBy st f l) :
    WeakSortedBy st f l.dropLast :=
  List.Pairwise.sublist (List.dropLast_sublist l) hw

/-- Element lookup in a list whose last element was dropped. -/
theorem getElem?_dropLast (l : List α) (j : Nat) (hj : j < l.length - 1) :
    l.dropLast[j]? = l[j]? := by
  rw [List.dropLast_eq_take, List.getElem?_take_of_lt hj]

/-- A strict prefix survives dropping the last element. -/
theorem take_dropLast (l : List α) (hm : m ≤ l.length - 1) :
    l.dropLast.take m = l.take m := by
  rw [List.dropLast_eq_take, List.take_take, min_eq_left hm]

/-- Splicing the new element in at the position the scan selects keeps the
    list weakly ordered. -/
theorem weakSorted_spliceInsert {f : α → Int} (hst : st = "high" ∨ st = "low")
    (hw : WeakSortedBy st f l) (e : α) (hfe : f e = s)
    (hcase : firstBeat st s f l = some k ∨
      (firstBeat st s f l = none ∧ k = l.length)) :
    WeakSortedBy st f (spliceInsert k e l) := by
  have hk : k ≤ l.length := by
    rcases hcase with h | ⟨h, hkk⟩
    · exact Nat.le_of_lt (firstBeat_lt h)
    · omega
  have hw' := (List.pairwise_iff_getElem).mp hw
  have hbefore : ∀ jj (hjj : jj < l.length), jj < k →
      beats st s (f (l[jj])) = false := by
    intro jj hjj hlt
    rcases hcase with h | ⟨h, hkk⟩
    · exact firstBeat_before h jj hlt _ (List.getElem?_eq_getElem hjj)
    · exact firstBeat_none h _ (List.getElem_mem hjj)
  rw [WeakSortedBy, List.pairwise_iff_getElem]
  intro i j hi hj hij
  have hlen := length_spliceInsert k e l
  have hgi := getElem?_spliceInsert e l hk i
  have hgj := getElem?_spliceInsert e l hk j
  rw [List.getElem?_eq_getElem hi] at hgi
  rw [List.getElem?_eq_getElem hj] at hgj
  by_cases hjk : j < k
  · have hik : i < k := by omega
    rw [if_pos hjk] at hgj
    rw [if_pos hik] at hgi
    obtain ⟨hbj, hYeq⟩ := List.getElem?_eq_some_iff.mp hgj.symm
    obtain ⟨hbi, hXeq⟩ := List.getElem?_eq_some_iff.mp hgi.symm
    rw [← hYeq, ← hXeq]
    exact hw' i j hbi hbj hij
  · by_cases hjek : j = k
    · have hik : i < k := by omega
      rw [if_neg (by omega), if_pos hjek] at hgj
      rw [if_pos hik] at hgi
      obtain ⟨hbi, hXeq⟩ := List.getElem?_eq_some_iff.mp hgi.symm
      have hYeq : (spliceInsert k e l)[j] = e := by
        exact Option.some.inj hgj
      rw [hYeq, ← hXeq, hfe]
      exact hbefore i hbi hik
    · have hjgt : k < j := by omega
      have hj1 : j - 1 < l.length := by omega
      rw [if_neg (by omega), if_neg hjek] at hgj
      obtain ⟨hbj, hYeq⟩ := List.getElem?_eq_some_iff.mp hgj.symm
      by_cases hik : i < k
      · rw [if_pos hik] at hgi
        obtain ⟨hbi, hXeq⟩ := List.getElem?_eq_some_iff.mp hgi.symm
        rw [← hYeq, ← hXeq]
        exact hw' i (j - 1) hbi hbj (by omega)
      · by_cases hiek : i = k
        · rw [if_neg (by omega), if_pos hiek] at hgi
          have hXeq : (spliceInsert k e l)[i] = e := Option.some.inj hgi
          rw [hXeq, ← hYeq, hfe]
          rcases hcase with h | ⟨h, hkk⟩
          · obtain ⟨x, hgx, hbx⟩ := firstBeat_beat h
            obtain ⟨hbk, hxeq⟩ := List.getElem?_eq_some_iff.mp hgx
            by_cases hj1k : j - 1 = k
            · have h1 : l[j - 1]? = some x := by rw [hj1k]; exact hgx
              have h2 : l[j - 1] = x :=
                Option.some.inj ((List.getElem?_eq_getElem hbj).symm.trans h1)
              rw [h2]
              exact beats_asymm hst hbx
            · have hrel := hw' k (j - 1) hbk hbj (by omega)
              rw [← hxeq] at hbx
              exact beats_shift hst hbx hrel
          · omega
        · have hik' : k < i := by omega
          have hi1 : i - 1 < l.length := by omega
          rw [if_neg (by omega), if_neg hiek] at hgi
          obtain ⟨hbi, hXeq⟩ := List.getElem?_eq_some_iff.mp hgi.symm
          rw [← hYeq, ← hXeq]
          exact hw' (i - 1) (j - 1) hbi hbj (by omega)

/-- A qualifying score on a full local board strictly beats the last entry. -/
theorem qualifies_full_beats_last (hg : lookupGame gameId = some game)
    (hst : game.scoreType = "high" ∨ game.scoreType = "low")
    (hq : scoreQualifies gameId score l = true)
    (hfull : ¬ l.length < MAX_ENTRIES) :
    ∃ x, l[l.length - 1]? = some x ∧ beats game.scoreType score x.score = true := by
  rw [scoreQualifies, hg] at hq
  cases hx : l[l.length - 1]? with
  | none => simp [hx, hfull] at hq
  | some worst =>
    simp only [hx, hfull, if_false] at hq
    refine ⟨worst, rfl, ?_⟩
    rcases hst with h | h <;> rw [h] at hq ⊢ <;> simp at hq <;> simp [beats, hq]

/-- In the local qualified path, getRank is the scan index plus one, where the
    scan hit an element or fell through to an append below capacity. -/
theorem getRank_qualified_cases (hg : lookupGame gameId = some game)
    (hst : game.scoreType = "high" ∨ game.scoreType = "low")
    (hq : scoreQualifies gameId score l = true) :
    ∃ i : Nat, getRank gameId score l = (i : Int) + 1 ∧
      (firstBeat game.scoreType score Entry.score l = some i ∨
        (firstBeat game.scoreType score Entry.score l = none ∧ i = l.length ∧
          l.length < MAX_ENTRIES)) := by
  cases hfb : firstBeat game.scoreType score Entry.score l with
  | some i => exact ⟨i, by simp [getRank, hg, hfb], Or.inl rfl⟩
  | none =>
    by_cases hlen : l.length < MAX_ENTRIES
    · exact ⟨l.length, by simp [getRank, hg, hfb, hlen], Or.inr ⟨rfl, rfl, hlen⟩⟩
    · exfalso
      rcases qualifies_full_beats_last hg hst hq hlen with ⟨x, hx, hb⟩
      obtain ⟨hlt, hxeq⟩ := List.getElem?_eq_some_iff.mp hx
      have hmem : x ∈ l := by rw [← hxeq]; exact List.getElem_mem hlt
      have hs := firstBeat_isSome x hmem hb
      rw [hfb] at hs
      cases hs

/-- An optional list element is present exactly when the index is in range. -/
theorem getElem_isSome_iff {l : List α} {n : Nat} :
    l[n]?.isSome = true ↔ n < l.length := by
  rw [Option.isSome_iff_exists]
  constructor
  · rintro ⟨a, ha⟩
    exact (List.getElem?_eq_some_iff.mp ha).1
  · intro h
    exact ⟨l[n], List.getElem?_eq_getElem h⟩

/-- Strict beating is transitive for a real score type. -/
theorem beats_trans (hst : st = "high" ∨ st = "low")
    (h1 : beats st a b = true) (h2 : beats st b c = true) :
    beats st a c = true := by
  rcases hst with h | h <;> subst h <;> simp [beats] at h1 h2 ⊢ <;> omega

/-- When no element is strictly beaten the scan returns no index. -/
theorem firstBeat_eq_none {f : α → Int}
    (h : ∀ x ∈ l, beats st s (f x) = false) : firstBeat st s f l = none := by
  cases hfb : firstBeat st s f l with
  | none => rfl
  | some i =>
    obtain ⟨x, hx, hbx⟩ := firstBeat_beat hfb
    obtain ⟨hlt, hxeq⟩ := List.getElem?_eq_some_iff.mp hx
    rw [h x (by rw [← hxeq]; exact List.getElem_mem hlt)] at hbx
    cases hbx

/-- Every configured browser game orders scores by high or by low. -/
theorem lookupGame_scoreType (h : lookupGame gid = some game) :
    game.scoreType = "high" ∨ game.scoreType = "low" := by
  rw [lookupGame, alookup] at h
  cases hf : GAMES.find? (fun kv => kv.1 == gid) with
  | none => rw [hf] at h; cases h
  | some kv =>
    rw [hf] at h
    have hkv : kv.2 = game := Option.some.inj (by simpa using h)
    have hmem := List.mem_of_find?_eq_some hf
    subst hkv
    fin_cases hmem <;> simp [GAMES]

/-- Every configured Lambda game orders scores by high or by low. -/
theorem lambda_lookupGame_scoreType (h : Lambda.lookupGame gid = some game) :
    game.scoreType = "high" ∨ game.scoreType = "low" := by
  rw [Lambda.lookupGame, alookup] at h
  cases hf : Lambda.GAMES.find? (fun kv => kv.1 == gid) with
  | none => rw [hf] at h; cases h
  | some kv =>
    rw [hf] at h
    have hkv : kv.2 = game := Option.some.inj (by simpa using h)
    have hmem := List.mem_of_find?_eq_some hf
    subst hkv
    fin_cases hmem <;> simp [Lambda.GAMES]

namespace Lambda

/-- A dense block has as many items as payloads. -/
theorem length_denseFrom (gid st : String) :
    ∀ (ps : List Payload) (a : Nat), (denseFrom gid st a ps).length = ps.length := by
  intro ps
  induction ps with
  | nil => intro a; rfl
  | cons p tl ih => intro a; simp [denseFrom, ih]

/-- Element lookup in a dense block. -/
theorem getElem?_denseFrom (gid st : String) :
    ∀ (ps : List Payload) (a j : Nat),
      (denseFrom gid st a ps)[j]? = (ps[j]?).map (entryAt gid st (a + j)) := by
  intro ps
  induction ps with
  | nil => intro a j; simp [denseFrom]
  | cons p tl ih =>
    intro a j
    cases j with
    | zero => simp [denseFrom]
    | succ j' =>
      simp only [denseFrom, List.getElem?_cons_succ]
      rw [ih (a + 1) j']
      have : a + 1 + j' = a + (j' + 1) := by omega
      rw [this]

/-- The scan over a dense block only looks at payload scores. -/
theorem firstBeat_denseFrom (gid st st2 : String) (s : Int) :
    ∀ (ps : List Payload) (a : Nat),
      firstBeat st2 s REntry.score (denseFrom gid st a ps) =
        firstBeat st2 s Payload.score ps := by
  intro ps
  induction ps with
  | nil => intro a; rfl
  | cons p tl ih =>
    intro a
    simp only [firstBeat, denseFrom, entryAt, ih (a + 1)]

/-- The table holding exactly a dense block, read rank by rank. -/
theorem storeOfList_denseFrom (gid st : String) :
    ∀ (ps : List Payload) (a r : Nat),
      storeOfList (denseFrom gid st a ps) r =
        if a ≤ r then (ps[r - a]?).map (entryAt gid st r) else none := by
  intro ps
  induction ps with
  | nil =>
    intro a r
    simp [denseFrom, storeOfList]
  | cons p tl ih =>
    intro a r
    simp only [denseFrom, storeOfList, List.find?_cons]
    by_cases hr : a = r
    · subst hr
      have : ((entryAt gid st a p).rank == a) = true := by simp [entryAt]
      simp [this, entryAt]
    · have : ((entryAt gid st a p).rank == r) = false := by
        simp [entryAt]
        omega
      rw [this]
      have h2 := ih (a + 1) r
      rw [storeOfList] at h2
      rw [h2]
      by_cases ha : a + 1 ≤ r
      · rw [if_pos ha, if_pos (by omega)]
        have : r - a = (r - (a + 1)) + 1 := by omega
        rw [this, List.getElem?_cons_succ]
      · rw [if_neg ha, if_neg (by omega)]

/-- Filtering a dense block for ranks at least t keeps everything when the
    block starts at or above t. -/
theorem filter_denseFrom_all (gid st : String) (t : Nat) :
    ∀ (ps : List Payload) (a : Nat), t ≤ a →
      (denseFrom gid st a ps).filter (fun e => t ≤ e.rank) =
        denseFrom gid st a ps := by
  intro ps
  induction ps with
  | nil => intro a h; rfl
  | cons p tl ih =>
    intro a h
    simp only [denseFrom, List.filter_cons]
    have hc : (decide (t ≤ (entryAt gid st a p).rank)) = true := by
      simp [entryAt]
      omega
    rw [hc, if_pos rfl, ih (a + 1) (by omega)]

/-- Filtering a dense block for ranks at least t drops the first t - a
    payloads and re-bases the block at t. -/
theorem filter_denseFrom_ge (gid st : String) (t : Nat) :
    ∀ (ps : List Payload) (a : Nat), a ≤ t →
      (denseFrom gid st a ps).filter (fun e => t ≤ e.rank) =
        denseFrom gid st t (ps.drop (t - a)) := by
  intro ps
  induction ps with
  | nil => intro a h; simp [denseFrom]
  | cons p tl ih =>
    intro a h
    by_cases hat : a = t
    · subst hat
      rw [Nat.sub_self, List.drop_zero]
      exact filter_denseFrom_all gid st a (p :: tl) a (le_refl a)
    · have hlt : a < t := by omega
      simp only [denseFrom, List.filter_cons]
      have hc : (decide (t ≤ (entryAt gid st a p).rank)) = false := by
        simp [entryAt]
        omega
      rw [hc]
      simp only [Bool.false_eq_true, if_false]
      rw [ih (a + 1) (by omega)]
      have : t - a = (t - (a + 1)) + 1 := by omega
      rw [this, List.drop_succ_cons]

/-- Write sequences compose. -/
theorem applyOps_append (o1 o2 : List Op) (f : Store) :
    applyOps (o1 ++ o2) f = applyOps o2 (applyOps o1 f) := by
  simp [applyOps, List.foldl_append]

/-- Unfolding one write. -/
theorem applyOps_cons (o : Op) (ops : List Op) (f : Store) :
    applyOps (o :: ops) f = applyOps ops (applyOp f o) := rfl

/-- The put-then-cleanup tail of the write sequence, read pointwise. -/
theorem applyOps_pair (t d : Nat) (e : REntry) (f : Store) (r : Nat) :
    applyOps [Op.put t e, Op.delete d] f r =
      if r = d then none else if r = t then some e else f r := by
  simp [applyOps, applyOp]

/-- A shift of a dense block below capacity rewrites each item one rank up. -/
theorem shiftOp_entryAt (gid st : String) (p : Payload) (h : a < MAX_ENTRIES) :
    shiftOp (entryAt gid st a p) = Op.put (a + 1) (entryAt gid st (a + 1) p) := by
  simp [shiftOp, entryAt, h]

/-- A shift of the item at capacity deletes it. -/
theorem shiftOp_entryAt_top (gid st : String) (p : Payload)
    (h : ¬ a < MAX_ENTRIES) : shiftOp (entryAt gid st a p) = Op.delete a := by
  simp [shiftOp, entryAt, h]

/-- Pointwise effect of the shift writes issued for a dense block of ranks
    a .. a+len-1: ranks a+1 through the shifted end hold the items moved one
    rank up, except that when the block reaches capacity, the final delete of
    the rank-MAX_ENTRIES item erases the key it was just shifted onto. -/
theorem applyOps_shift (gid st : String) :
    ∀ (ps : List Payload) (a : Nat) (f : Store) (r : Nat),
      1 ≤ a → a + ps.length ≤ MAX_ENTRIES + 1 →
      applyOps ((denseFrom gid st a ps).map shiftOp) f r =
        if a + 1 ≤ r ∧ r ≤ a + ps.length ∧ r ≤ MAX_ENTRIES ∧
            ¬(a + ps.length = MAX_ENTRIES + 1 ∧ r = MAX_ENTRIES) then
          (ps[r - (a + 1)]?).map (entryAt gid st r)
        else if a + ps.length = MAX_ENTRIES + 1 ∧ r = MAX_ENTRIES ∧
            a ≤ MAX_ENTRIES then none
        else f r := by
  intro ps
  induction ps with
  | nil =>
    intro a f r h1 h2
    simp only [denseFrom, List.map_nil, applyOps, List.foldl_nil, List.length_nil]
    rw [if_neg (by omega), if_neg (by omega)]
  | cons p tl ih =>
    intro a f r h1 h2
    simp only [List.length_cons] at h2
    rw [denseFrom, List.map_cons, applyOps_cons]
    rw [ih (a + 1) (applyOp f (shiftOp (entryAt gid st a p))) r (by omega) (by omega)]
    simp only [List.length_cons]
    by_cases ha : a < MAX_ENTRIES
    · rw [shiftOp_entryAt gid st p ha]
      by_cases hc1 : a + 1 + 1 ≤ r ∧ r ≤ a + 1 + tl.length ∧ r ≤ MAX_ENTRIES ∧
          ¬(a + 1 + tl.length = MAX_ENTRIES + 1 ∧ r = MAX_ENTRIES)
      · rw [if_pos hc1, if_pos (by omega)]
        have hsub : r - (a + 1) = (r - (a + 1 + 1)) + 1 := by omega
        rw [hsub, List.getElem?_cons_succ]
      · rw [if_neg hc1]
        by_cases hc2 : a + 1 + tl.length = MAX_ENTRIES + 1 ∧ r = MAX_ENTRIES ∧
            a + 1 ≤ MAX_ENTRIES
        · rw [if_pos hc2, if_neg (by omega), if_pos (by omega)]
        · rw [if_neg hc2]
          by_cases hr : r = a + 1
          · rw [if_pos (by omega)]
            subst hr
            have hz : a + 1 - (a + 1) = 0 := by omega
            rw [hz, List.getElem?_cons_zero, Option.map_some']
            simp [applyOp]
          · rw [if_neg (by omega), if_neg (by omega)]
            simp only [applyOp]
            rw [if_neg hr]
    · have haa : a = MAX_ENTRIES := by omega
      have htl' : tl = [] := List.length_eq_zero.mp (by omega)
      subst htl'
      rw [shiftOp_entryAt_top gid st p ha]
      simp only [List.length_nil, denseFrom, List.map_nil, applyOps, List.foldl_nil,
        applyOp]
      split_ifs <;> first | rfl | omega

/-- Running submitScore against a consistent dense snapshot: the submission is
    accepted at some rank t bounded by the list length and the capacity, that
    rank comes from the scan, and the table left behind after its write
    sequence is exactly expectedFinal. -/
theorem submit_final_char (gid name : String) (game : LGame) (s now : Int)
    (ps : List Payload)
    (hg : lookupGame gid = some game)
    (hn : ps.length ≤ MAX_ENTRIES)
    (hq : (submitScore gid name s now (mkDense gid game.scoreType ps)).1.qualified
      = true) :
    ∃ t : Nat, 1 ≤ t ∧ t ≤ ps.length + 1 ∧ t ≤ MAX_ENTRIES ∧
      (submitScore gid name s now (mkDense gid game.scoreType ps)).1.rank
        = (t : Int) ∧
      (firstBeat game.scoreType s Payload.score ps = some (t - 1) ∨
        (firstBeat game.scoreType s Payload.score ps = none ∧
          t = ps.length + 1)) ∧
      ∀ r, applyOps
          (submitScore gid name s now (mkDense gid game.scoreType ps)).2
          (storeOfList (mkDense gid game.scoreType ps)) r =
        expectedFinal gid game.scoreType t
          (entryAt gid game.scoreType t ⟨name.take 10, s, now⟩) ps r := by
  simp only [mkDense] at hq ⊢
  have hlen := length_denseFrom gid game.scoreType ps 1
  have hfbs := firstBeat_denseFrom gid game.scoreType game.scoreType s ps 1
  cases hfbd : firstBeat game.scoreType s Payload.score ps with
  | none =>
    by_cases hl : ps.length < MAX_ENTRIES
    · have hR : getRank game.scoreType s (denseFrom gid game.scoreType 1 ps)
          = ((ps.length : Int)) + 1 := by
        rw [getRank, if_pos (by omega), hfbs, hfbd, hlen]
      have hbeq : (((ps.length : Int) + 1) == (-1 : Int)) = false := by
        rw [beq_eq_false_iff_ne]
        omega
      have htn : (((ps.length : Int)) + 1).toNat = ps.length + 1 := by omega
      have hsub : submitScore gid name s now (denseFrom gid game.scoreType 1 ps)
          = (⟨true, (ps.length : Int) + 1, none⟩,
            ((denseFrom gid game.scoreType 1 ps).filter
                (fun e => ps.length + 1 ≤ e.rank)).map shiftOp
              ++ [Op.put (ps.length + 1)
                    (entryAt gid game.scoreType (ps.length + 1)
                      ⟨name.take 10, s, now⟩),
                  Op.delete (MAX_ENTRIES + 1)]) := by
        rw [submitScore, hg]
        simp only [hR, hbeq, Bool.false_eq_true, if_false, htn, entryAt]
      have hsub1 : (submitScore gid name s now
          (denseFrom gid game.scoreType 1 ps)).1
          = ⟨true, (ps.length : Int) + 1, none⟩ := by rw [hsub]
      have hsub2 : (submitScore gid name s now
          (denseFrom gid game.scoreType 1 ps)).2
          = ((denseFrom gid game.scoreType 1 ps).filter
                (fun e => ps.length + 1 ≤ e.rank)).map shiftOp
              ++ [Op.put (ps.length + 1)
                    (entryAt gid game.scoreType (ps.length + 1)
                      ⟨name.take 10, s, now⟩),
                  Op.delete (MAX_ENTRIES + 1)] := by rw [hsub]
      refine ⟨ps.length + 1, by omega, by omega, by omega, ?_, ?_, ?_⟩
      · rw [hsub1]
        show (ps.length : Int) + 1 = ((ps.length + 1 : Nat) : Int)
        omega
      · exact Or.inr ⟨rfl, rfl⟩
      · intro r
        rw [hsub2]
        have hdl : (ps.drop (ps.length + 1 - 1)).length = 0 := by
          rw [List.length_drop]
          omega
        rw [applyOps_append, applyOps_pair,
          filter_denseFrom_ge gid game.scoreType (ps.length + 1) ps 1 (by omega),
          applyOps_shift gid game.scoreType (ps.drop (ps.length + 1 - 1))
            (ps.length + 1) _ r (by omega) (by rw [hdl]; omega),
          storeOfList_denseFrom gid game.scoreType ps 1 r, expectedFinal]
        rw [hdl]
        split_ifs <;> first
          | rfl
          | omega
          | (rw [List.getElem?_eq_none (by omega)]; rfl)
    · exfalso
      have hR : getRank game.scoreType s (denseFrom gid game.scoreType 1 ps)
          = -1 := by
        rw [getRank, if_neg (by omega), hfbs, hfbd]
      rw [submitScore, hg] at hq
      simp only [hR] at hq
      simp at hq
  | some i =>
    have hilt : i < ps.length := by
      have h1 := firstBeat_lt hfbd
      omega
    have hR : getRank game.scoreType s (denseFrom gid game.scoreType 1 ps)
        = ((i : Int)) + 1 := by
      rw [getRank]
      by_cases hc : (denseFrom gid game.scoreType 1 ps).length < MAX_ENTRIES
      · rw [if_pos hc, hfbs, hfbd]
      · rw [if_neg hc, hfbs, hfbd]
    have hbeq : (((i : Int) + 1) == (-1 : Int)) = false := by
      rw [beq_eq_false_iff_ne]
      omega
    have htn : (((i : Int)) + 1).toNat = i + 1 := by omega
    have hsub : submitScore gid name s now (denseFrom gid game.scoreType 1 ps)
        = (⟨true, (i : Int) + 1, none⟩,
          ((denseFrom gid game.scoreType 1 ps).filter
              (fun e => i + 1 ≤ e.rank)).map shiftOp
            ++ [Op.put (i + 1)
                  (entryAt gid game.scoreType (i + 1) ⟨name.take 10, s, now⟩),
                Op.delete (MAX_ENTRIES + 1)]) := by
      rw [submitScore, hg]
      simp only [hR, hbeq, Bool.false_eq_true, if_false, htn, entryAt]
    have hsub1 : (submitScore gid name s now
        (denseFrom gid game.scoreType 1 ps)).1
        = ⟨true, (i : Int) + 1, none⟩ := by rw [hsub]
    have hsub2 : (submitScore gid name s now
        (denseFrom gid game.scoreType 1 ps)).2
        = ((denseFrom gid game.scoreType 1 ps).filter
              (fun e => i + 1 ≤ e.rank)).map shiftOp
            ++ [Op.put (i + 1)
                  (entryAt gid game.scoreType (i + 1) ⟨name.take 10, s, now⟩),
                Op.delete (MAX_ENTRIES + 1)] := by rw [hsub]
    refine ⟨i + 1, by omega, by omega, by omega, ?_, ?_, ?_⟩
    · rw [hsub1]
      show (i : Int) + 1 = ((i + 1 : Nat) : Int)
      omega
    · exact Or.inl (by simp)
    · intro r
      rw [hsub2]
      have hdl : (ps.drop (i + 1 - 1)).length = ps.length - i := by
        rw [List.length_drop]
        omega
      rw [applyOps_append, applyOps_pair,
        filter_denseFrom_ge gid game.scoreType (i + 1) ps 1 (by omega),
        applyOps_shift gid game.scoreType (ps.drop (i + 1 - 1))
          (i + 1) _ r (by omega) (by rw [hdl]; omega),
        storeOfList_denseFrom gid game.scoreType ps 1 r, expectedFinal]
      rw [hdl]
      split_ifs <;> first
        | rfl
        | omega
        | (rw [List.getElem?_eq_none (by omega)]; rfl)
        | (rw [List.getElem?_drop]; congr 2; omega)



/-- Folding scanned items into the groups appends, under any key already
    present, exactly the items of that key in scan order. -/
theorem foldl_pushItem_alookup :
    ∀ (items : List REntry) (res : List (String × List REntry)) (g : String)
      (v : List REntry), alookup res g = some v →
      alookup (items.foldl pushItem res) g
        = some (v ++ items.filter (fun e => e.gameId == g)) := by
  intro items
  induction items with
  | nil => intro res g v hv; simpa using hv
  | cons item rest ih =>
    intro res g v hv
    simp only [List.foldl_cons, List.filter_cons]
    cases hgid : (item.gameId == g) with
    | true =>
      have hgeq : item.gameId = g := by simpa using hgid
      have hlook : alookup res item.gameId = some v := by rw [hgeq]; exact hv
      have hpush : pushItem res item = aset res item.gameId (v ++ [item]) := by
        rw [pushItem, hlook]
      rw [hpush]
      have hv2 : alookup (aset res item.gameId (v ++ [item])) g
          = some (v ++ [item]) := by
        rw [hgeq]
        exact alookup_aset_self res g (v ++ [item])
      rw [ih _ g (v ++ [item]) hv2]
      simp [hgid]
    | false =>
      have hgne : g ≠ item.gameId := by
        intro h
        rw [h] at hgid
        simp at hgid
      have hv2 : alookup (pushItem res item) g = some v := by
        rw [pushItem]
        cases hlook : alookup res item.gameId with
        | none => exact alookup_append_some _ _ hv
        | some w => rw [alookup_aset_ne _ hgne]; exact hv
      rw [ih _ g v hv2]
      simp [hgid]

/-- getAllLeaderboards maps every configured game to the rank-sorted top-3
    projection of exactly its scanned items (in particular to the empty list
    when it has no items). -/
theorem getAllLeaderboards_char (items : List REntry) (g : String)
    (game : LGame) (hg : lookupGame g = some game) :
    alookup (getAllLeaderboards items) g
      = some (((sortByRank (items.filter (fun e => e.gameId == g))).take 3).map
          proj) := by
  rw [lookupGame] at hg
  have hstart : alookup (GAMES.map (fun kv => (kv.1, ([] : List REntry)))) g
      = some [] := by
    have h1 : alookup (GAMES.map (fun kv =>
        (kv.1, (fun _ : LGame => ([] : List REntry)) kv.2))) g
        = (alookup GAMES g).map (fun _ => []) :=
      alookup_map_values (fun _ : LGame => ([] : List REntry)) GAMES g
    rw [hg] at h1
    exact h1
  have hgrouped := foldl_pushItem_alookup items
    (GAMES.map (fun kv => (kv.1, ([] : List REntry)))) g [] hstart
  simp only [getAllLeaderboards]
  have h2 : alookup ((items.foldl pushItem
      (GAMES.map (fun kv => (kv.1, ([] : List REntry))))).map (fun kv =>
        (kv.1, (fun v => ((sortByRank v).take 3).map proj) kv.2))) g
      = (alookup (items.foldl pushItem
          (GAMES.map (fun kv => (kv.1, ([] : List REntry))))) g).map
        (fun v => ((sortByRank v).take 3).map proj) :=
    alookup_map_values (fun v => ((sortByRank v).take 3).map proj) _ g
  rw [h2, hgrouped]
  simp

end Lambda


/-- C1 (counterexample): starting from the strictly ordered consistent board
    [100, 90, 80], the completed submission of 90 returns qualified true, yet
    the stored list [100, 90, 90, 80] is not strictly ordered under the
    category's high direction, refuting the strict-ordering invariant. -/
theorem c1_counterexample :
    (localSubmitScore snakeId subName 90 1 tieState).1 = ⟨true, 3⟩ ∧
    ((alookup (localSubmitScore snakeId subName 90 1 tieState).2 snakeId).getD
        []).map Entry.score = [100, 90, 90, 80] ∧
    ¬ StrictSortedBy hiType Entry.score
        ((alookup (localSubmitScore snakeId subName 90 1 tieState).2
          snakeId).getD []) ∧
    StrictSortedBy hiType Entry.score tieBoard := by
  refine ⟨by decide, by decide, by decide, by decide⟩

/-- C2 (code evaluation at the failing input): on the full snake snapshot with
    target rank 2, the Lambda write trace handles the displaced entries in
    ascending rank order (puts at 3, 4, ..., 10, then the delete for the old
    rank-10 entry), not descending; the late delete lands on the key the
    rank-9 entry was just shifted onto, so the final table is empty at rank
    MAX_ENTRIES although the snapshot held an item there. -/
theorem c2_ascending_order_eval :
    ((Lambda.submitScore snakeId subName 95 1 Lambda.snapTen).2).map
        Lambda.opSig
      = [(0, 3), (0, 4), (0, 5), (0, 6), (0, 7), (0, 8), (0, 9), (0, 10),
         (1, 10), (0, 2), (1, 11)] ∧
    Lambda.applyOps (Lambda.submitScore snakeId subName 95 1 Lambda.snapTen).2
        (Lambda.storeOfList Lambda.snapTen) MAX_ENTRIES = none ∧
    (Lambda.storeOfList Lambda.snapTen MAX_ENTRIES).isSome = true := by
  refine ⟨by decide, by decide, by decide⟩

/-- C3 (code evaluation): the local path reproduces the scenario exactly
    (qualified at rank 2, ten stored scores ending in 20), but the remote
    submitScore leaves only nine entries: the score-20 entry is lost along
    with the evicted score-10 entry. -/
theorem c3_scenario_eval :
    (localSubmitScore snakeId subName 95 1 fullState).1 = ⟨true, 2⟩ ∧
    ((alookup (localSubmitScore snakeId subName 95 1 fullState).2 snakeId).getD
        []).map Entry.score = [100, 95, 90, 80, 70, 60, 50, 40, 30, 20] ∧
    (Lambda.submitScore snakeId subName 95 1 Lambda.snapTen).1.qualified
      = true ∧
    (Lambda.submitScore snakeId subName 95 1 Lambda.snapTen).1.rank = 2 ∧
    (Lambda.listStore (Lambda.applyOps
        (Lambda.submitScore snakeId subName 95 1 Lambda.snapTen).2
        (Lambda.storeOfList Lambda.snapTen))).map Lambda.REntry.score
      = [100, 95, 90, 80, 70, 60, 50, 40, 30] := by
  refine ⟨by decide, by decide, by decide, by decide, by decide⟩

/-- C4 (counterexample): when the remote POST fails (none), apiSubmitScore
    returns the localSubmitScore fallback result carrying no error marker, so
    the caller cannot distinguish the failed remote write from a success. -/
theorem c4_counterexample :
    apiSubmitScore none snakeId subName 100 5 initialLeaderboards
      = ((⟨true, 1, none⟩ : LambdaRes),
        (localSubmitScore snakeId subName 100 5 initialLeaderboards).2) ∧
    signalsError (apiSubmitScore none snakeId subName 100 5
        initialLeaderboards).1 = false ∧
    (localSubmitScore snakeId subName 100 5 initialLeaderboards).1
      = ⟨true, 1⟩ := by
  refine ⟨by decide, by decide, by decide⟩

/-- C4 (amended): on every failed remote submission, apiSubmitScore silently
    substitutes the local mirror: it returns exactly the local submit result
    with an absent error field, never a surfaced failure. -/
theorem c4_amended_fallback (gameId playerName : String) (score now : Int)
    (st : LState) :
    apiSubmitScore none gameId playerName score now st
      = (⟨(localSubmitScore gameId playerName score now st).1.qualified,
          (localSubmitScore gameId playerName score now st).1.rank, none⟩,
        (localSubmitScore gameId playerName score now st).2) ∧
    signalsError (apiSubmitScore none gameId playerName score now st).1
      = false :=
  ⟨rfl, rfl⟩

/-- C8 (counterexample): the local submit path stores an 11-character player
    name unchanged, so the stored name is not the 10-character truncation. -/
theorem c8_counterexample :
    ((alookup (localSubmitScore snakeId longName 50 0 initialLeaderboards).2
        snakeId).getD []).map Entry.playerName = [longName] ∧
    longName.length = 11 ∧
    longName.take 10 ≠ longName := by
  refine ⟨by decide, by decide, by decide⟩

/-- C9 (counterexample): the local getAllLeaderboards returns the stored
    mapping unchanged; a four-entry category stays at four entries, so no
    truncation to the default limit 3 happens on the local path. -/
theorem c9_counterexample :
    localGetAllLeaderboards c9State = c9State ∧
    ((alookup (localGetAllLeaderboards c9State) snakeId).getD []).length
      = 4 := by
  refine ⟨rfl, by decide⟩


/-- specBeats under the derived direction agrees with the code's beat test. -/
theorem specBeats_eq (hst : st = "high" ∨ st = "low") (s x : Int) :
    specBeats (dirOf st) s x = beats st s x := by
  rcases hst with h | h <;> subst h <;> simp [specBeats, dirOf, beats]

/-- The spec scan agrees with the code scan. -/
theorem specFirstBeat_eq {f : α → Int} (hst : st = "high" ∨ st = "low")
    (s : Int) (l : List α) :
    specFirstBeat (dirOf st) s (l.map f) = firstBeat st s f l := by
  induction l with
  | nil => rfl
  | cons e tl ih =>
    simp only [List.map_cons, specFirstBeat, firstBeat, specBeats_eq hst, ih]

/-- A qualified local submission passed the scoreQualifies check. -/
theorem qualified_imp_scoreQualifies (hg : lookupGame gameId = some game)
    (h : (localSubmitScore gameId name s now st0).1.qualified = true) :
    scoreQualifies gameId s ((alookup st0 gameId).getD []) = true := by
  by_cases hq : scoreQualifies gameId s ((alookup st0 gameId).getD []) = true
  · exact hq
  · have hq2 : scoreQualifies gameId s ((alookup st0 gameId).getD [])
        = false := by
      revert hq
      cases scoreQualifies gameId s ((alookup st0 gameId).getD []) <;> simp
    simp [localSubmitScore, hg, hq2] at h

/-- C6: both rank functions implement the single uniform computeRank rule of
    the spec: first strictly beaten index plus one, else append below
    capacity, else NOT_QUALIFIED. -/
theorem c6_rank_rule :
    (∀ (gameId : String) (game : Game) (s : Int) (l : List Entry),
      lookupGame gameId = some game →
      getRank gameId s l
        = computeRank (dirOf game.scoreType) s (l.map Entry.score)
            MAX_ENTRIES) ∧
    (∀ (gameId : String) (game : Lambda.LGame) (s : Int)
        (l : List Lambda.REntry),
      Lambda.lookupGame gameId = some game →
      Lambda.getRank game.scoreType s l
        = computeRank (dirOf game.scoreType) s (l.map Lambda.REntry.score)
            MAX_ENTRIES) := by
  constructor
  · intro gameId game s l hg
    have hst := lookupGame_scoreType hg
    rw [computeRank, specFirstBeat_eq hst s l]
    cases hfb : firstBeat game.scoreType s Entry.score l with
    | some i => simp [getRank, hg, hfb]
    | none => simp [getRank, hg, hfb, List.length_map]
  · intro gameId game s l hg
    have hst := lambda_lookupGame_scoreType hg
    rw [computeRank, specFirstBeat_eq hst s l]
    cases hfb : firstBeat game.scoreType s Lambda.REntry.score l with
    | some i => simp [Lambda.getRank, hfb]
    | none => simp [Lambda.getRank, hfb, List.length_map]

/-- Witness for C6 at the snake configuration and the full boards. -/
theorem c6_witness :
    getRank snakeId 95 fullBoard
      = computeRank (dirOf snakeGame.scoreType) 95 (fullBoard.map Entry.score)
          MAX_ENTRIES ∧
    Lambda.getRank Lambda.lambdaSnake.scoreType 95 Lambda.snapTen
      = computeRank (dirOf Lambda.lambdaSnake.scoreType) 95
          (Lambda.snapTen.map Lambda.REntry.score) MAX_ENTRIES :=
  ⟨c6_rank_rule.1 snakeId snakeGame 95 fullBoard (by decide),
   c6_rank_rule.2 snakeId Lambda.lambdaSnake 95 Lambda.snapTen (by decide)⟩

/-- C10: on a strictly sorted board of a configured game, a score qualifies
    exactly when its computed rank is not -1. -/
theorem c10_qualifies_iff_rank (gameId : String) (game : Game) (s : Int)
    (l : List Entry) (hg : lookupGame gameId = some game)
    (hsorted : StrictSortedBy game.scoreType Entry.score l) :
    (scoreQualifies gameId s l = true ↔ getRank gameId s l ≠ -1) := by
  have hst := lookupGame_scoreType hg
  by_cases hl : l.length < MAX_ENTRIES
  · have hqt : scoreQualifies gameId s l = true := by
      simp [scoreQualifies, hg, hl]
    have hrt : getRank gameId s l ≠ -1 := by
      cases hfb : firstBeat game.scoreType s Entry.score l with
      | some i =>
        have h1 : getRank gameId s l = (i : Int) + 1 := by
          simp [getRank, hg, hfb]
        omega
      | none =>
        have h1 : getRank gameId s l = (l.length : Int) + 1 := by
          simp [getRank, hg, hfb, hl]
        omega
    simp [hqt, hrt]
  · constructor
    · intro hq
      obtain ⟨x, hx, hb⟩ := qualifies_full_beats_last hg hst hq hl
      obtain ⟨hlt, hxeq⟩ := List.getElem?_eq_some_iff.mp hx
      have hs := firstBeat_isSome x
        (by rw [← hxeq]; exact List.getElem_mem hlt) hb
      cases hfb : firstBeat game.scoreType s Entry.score l with
      | none => rw [hfb] at hs; cases hs
      | some i =>
        have h1 : getRank gameId s l = (i : Int) + 1 := by
          simp [getRank, hg, hfb]
        omega
    · intro hr
      cases hfb : firstBeat game.scoreType s Entry.score l with
      | none =>
        exfalso
        have h1 : getRank gameId s l = -1 := by
          simp [getRank, hg, hfb, hl]
        exact hr h1
      | some i =>
        obtain ⟨x, hx, hb⟩ := firstBeat_beat hfb
        obtain ⟨hxlt, hxeq⟩ := List.getElem?_eq_some_iff.mp hx
        have hw := (List.pairwise_iff_getElem).mp hsorted
        have hlen1 : l.length - 1 < l.length := by omega
        have hbw : beats game.scoreType s (l[l.length - 1]).score = true := by
          by_cases hi : i = l.length - 1
          · have hq1 : l[l.length - 1] = x :=
              Option.some.inj ((List.getElem?_eq_getElem hlen1).symm.trans
                (by rw [← hi]; exact hx))
            rw [hq1]
            exact hb
          · have h2 := hw i (l.length - 1) hxlt hlen1 (by omega)
            have hq1 : l[i] = x :=
              Option.some.inj ((List.getElem?_eq_getElem hxlt).symm.trans hx)
            rw [hq1] at h2
            exact beats_trans hst hb h2
        rcases hst with h | h <;>
          simp only [beats, h] at hbw <;>
          simp at hbw <;>
          simp [scoreQualifies, hg, hl, List.getElem?_eq_getElem hlen1, h, hbw]


/-- Witness for C10 at the snake game and its full strictly-sorted board. -/
theorem c10_witness :
    (scoreQualifies snakeId 95 fullBoard = true ↔
      getRank snakeId 95 fullBoard ≠ -1) :=
  c10_qualifies_iff_rank snakeId snakeGame 95 fullBoard (by decide) (by decide)

/-- C5: ties never displace. On a weakly sorted board, submitting a score
    equal to the entry at position i leaves the prefix through that entry
    untouched; on a full board a score equal to the worst (last) entry is
    rejected with the state unchanged; the Lambda rank function also returns
    -1 for a score tying the worst entry of a full sorted snapshot. -/
theorem c5_ties_never_displace :
    (∀ (gameId name : String) (game : Game) (now : Int) (st0 : LState)
        (i : Nat) (x : Entry),
      lookupGame gameId = some game →
      WeakSortedBy game.scoreType Entry.score ((alookup st0 gameId).getD []) →
      ((alookup st0 gameId).getD [])[i]? = some x →
      ((alookup (localSubmitScore gameId name x.score now st0).2 gameId).getD
          []).take (i + 1)
        = ((alookup st0 gameId).getD []).take (i + 1)) ∧
    (∀ (gameId name : String) (game : Game) (now : Int) (st0 : LState)
        (w : Entry),
      lookupGame gameId = some game →
      ((alookup st0 gameId).getD []).length = MAX_ENTRIES →
      ((alookup st0 gameId).getD [])[MAX_ENTRIES - 1]? = some w →
      localSubmitScore gameId name w.score now st0 = (⟨false, -1⟩, st0)) ∧
    (∀ (st2 : String) (l : List Lambda.REntry) (w : Lambda.REntry),
      (st2 = "high" ∨ st2 = "low") →
      WeakSortedBy st2 Lambda.REntry.score l →
      l.length = MAX_ENTRIES →
      l[MAX_ENTRIES - 1]? = some w →
      Lambda.getRank st2 w.score l = -1) := by
  refine ⟨?_, ?_, ?_⟩
  · intro gameId name game now st0 i x hg hw hx
    have hst := lookupGame_scoreType hg
    obtain ⟨hxlt, hxeq⟩ := List.getElem?_eq_some_iff.mp hx
    by_cases hq : scoreQualifies gameId x.score
        ((alookup st0 gameId).getD []) = true
    · obtain ⟨i0, hrank, hcases⟩ := getRank_qualified_cases hg hst hq
      have hge : i + 1 ≤ i0 := by
        rcases hcases with hfb | ⟨hfb, hlen0, hcap⟩
        · by_contra hlt2
          push_neg at hlt2
          obtain ⟨y, hy, hby⟩ := firstBeat_beat hfb
          obtain ⟨hylt, hyeq⟩ := List.getElem?_eq_some_iff.mp hy
          by_cases hii : i0 = i
          · have hyx : y = x := by
              rw [hii] at hy
              exact Option.some.inj (hy.symm.trans hx)
            rw [hyx, beats_irrefl] at hby
            cases hby
          · have hp := (List.pairwise_iff_getElem).mp hw i0 i hylt hxlt
              (by omega)
            rw [hxeq, hyeq] at hp
            rw [hp] at hby
            cases hby
        · omega
      have hi0le : i0 ≤ ((alookup st0 gameId).getD []).length := by
        rcases hcases with hfb | ⟨hfb, hlen0, hcap⟩
        · exact Nat.le_of_lt (firstBeat_lt hfb)
        · omega
      have hidx : (getRank gameId x.score ((alookup st0 gameId).getD [])
          - 1).toNat = i0 := by
        rw [hrank]
        omega
      simp only [localSubmitScore, hg, hq, if_true, hidx]
      rw [alookup_aset_self, Option.getD_some]
      by_cases htrim : MAX_ENTRIES <
          (spliceInsert i0 (⟨name, x.score, now⟩ : Entry)
            ((alookup st0 gameId).getD [])).length
      · rw [if_pos htrim, take_dropLast _ (by rw [length_spliceInsert]; omega)]
        exact take_spliceInsert _ _ hge hi0le
      · rw [if_neg htrim]
        exact take_spliceInsert _ _ hge hi0le
    · have hq2 : scoreQualifies gameId x.score
          ((alookup st0 gameId).getD []) = false := by
        revert hq
        cases scoreQualifies gameId x.score ((alookup st0 gameId).getD []) <;>
          simp
      simp [localSubmitScore, hg, hq2]
  · intro gameId name game now st0 w hg hlen hwx
    have hst := lookupGame_scoreType hg
    have hidx : ((alookup st0 gameId).getD []).length - 1
        = MAX_ENTRIES - 1 := by omega
    have hq : scoreQualifies gameId w.score ((alookup st0 gameId).getD [])
        = false := by
      rcases hst with h | h <;>
        simp [scoreQualifies, hg, hlen, hidx, hwx, h]
    simp [localSubmitScore, hg, hq]
  · intro st2 l w hst2 hw hlen hwx
    obtain ⟨hwlt, hweq⟩ := List.getElem?_eq_some_iff.mp hwx
    have hfb : firstBeat st2 w.score Lambda.REntry.score l = none := by
      apply firstBeat_eq_none
      intro x hxm
      obtain ⟨j, hj⟩ := List.mem_iff_getElem?.mp hxm
      obtain ⟨hjlt, hjeq⟩ := List.getElem?_eq_some_iff.mp hj
      by_cases hj1 : j = MAX_ENTRIES - 1
      · have hxw : x = w := by
          rw [hj1] at hj
          exact Option.some.inj (hj.symm.trans hwx)
        rw [hxw]
        exact beats_irrefl st2 w.score
      · have hp := (List.pairwise_iff_getElem).mp hw j (MAX_ENTRIES - 1)
          hjlt hwlt (by omega)
        rw [hweq, hjeq] at hp
        exact hp
    rw [Lambda.getRank, if_neg (by omega), hfb]

/-- Witness for C5: the snake game over the full weakly sorted board, the
    tying submission of 90 at position 1, the tie with the worst entry 10,
    and the Lambda rank of the tying score. -/
theorem c5_witness :
    ((alookup (localSubmitScore snakeId subName
        ((⟨"b", 90, 0⟩ : Entry)).score 7 fullState).2 snakeId).getD
        []).take 2 = fullBoard.take 2 ∧
    localSubmitScore snakeId subName ((⟨"j", 10, 0⟩ : Entry)).score 7 fullState
      = (⟨false, -1⟩, fullState) ∧
    Lambda.getRank hiType (Lambda.snapTen.get ⟨MAX_ENTRIES - 1, by decide⟩).score
      Lambda.snapTen = -1 := by
  refine ⟨?_, ?_, ?_⟩
  · exact c5_ties_never_displace.1 snakeId subName snakeGame 7 fullState 1
      ⟨"b", 90, 0⟩ (by decide) (by decide) (by decide)
  · exact c5_ties_never_displace.2.1 snakeId subName snakeGame 7 fullState
      ⟨"j", 10, 0⟩ (by decide) (by decide) (by decide)
  · exact c5_ties_never_displace.2.2 hiType Lambda.snapTen
      (Lambda.snapTen.get ⟨MAX_ENTRIES - 1, by decide⟩) (Or.inl (by decide))
      (by decide) (by decide) (by decide)

/-- C7: the capacity bound. The local path never stores more than MAX_ENTRIES
    entries when starting within capacity, and the remote write sequence run
    from a consistent snapshot leaves items only at ranks 1..MAX_ENTRIES. -/
theorem c7_capacity :
    (∀ (gameId name : String) (s now : Int) (st0 : LState),
      ((alookup st0 gameId).getD []).length ≤ MAX_ENTRIES →
      ((alookup (localSubmitScore gameId name s now st0).2 gameId).getD
          []).length ≤ MAX_ENTRIES) ∧
    (∀ (gid name : String) (game : Lambda.LGame) (s now : Int)
        (ps : List Lambda.Payload),
      Lambda.lookupGame gid = some game →
      ps.length ≤ MAX_ENTRIES →
      (Lambda.submitScore gid name s now
          (Lambda.mkDense gid game.scoreType ps)).1.qualified = true →
      ∀ r, (Lambda.applyOps
          (Lambda.submitScore gid name s now
            (Lambda.mkDense gid game.scoreType ps)).2
          (Lambda.storeOfList (Lambda.mkDense gid game.scoreType ps))
          r).isSome = true →
        1 ≤ r ∧ r ≤ MAX_ENTRIES) := by
  constructor
  · intro gameId name s now st0 hlen
    cases hgo : lookupGame gameId with
    | none => simpa [localSubmitScore, hgo] using hlen
    | some game =>
      by_cases hq : scoreQualifies gameId s ((alookup st0 gameId).getD [])
          = true
      · simp only [localSubmitScore, hgo, hq, if_true]
        rw [alookup_aset_self, Option.getD_some]
        by_cases htrim : MAX_ENTRIES <
            (spliceInsert (getRank gameId s ((alookup st0 gameId).getD [])
                - 1).toNat (⟨name, s, now⟩ : Entry)
              ((alookup st0 gameId).getD [])).length
        · rw [if_pos htrim, List.length_dropLast, length_spliceInsert]
          omega
        · rw [if_neg htrim]
          rw [length_spliceInsert] at htrim
          rw [length_spliceInsert]
          omega
      · have hq2 : scoreQualifies gameId s ((alookup st0 gameId).getD [])
            = false := by
          revert hq
          cases scoreQualifies gameId s ((alookup st0 gameId).getD []) <;>
            simp
        simpa [localSubmitScore, hgo, hq2] using hlen
  · intro gid name game s now ps hg hn hq r hs
    obtain ⟨t, ht1, ht2, ht3, hrank, hfb, hfinal⟩ :=
      Lambda.submit_final_char gid name game s now ps hg hn hq
    rw [hfinal r, Lambda.expectedFinal] at hs
    split_ifs at hs with h0 hT hLT h4
    · simp at hs
    · omega
    · omega
    · omega
    · simp at hs

/-- Witness for C7: the full snake board accepting 95 locally, and the remote
    final table of the same submission probed at the in-range rank 2. -/
theorem c7_witness :
    ((alookup (localSubmitScore snakeId subName 95 1 fullState).2
        snakeId).getD []).length ≤ MAX_ENTRIES ∧
    (1 ≤ 2 ∧ 2 ≤ MAX_ENTRIES) := by
  refine ⟨?_, ?_⟩
  · exact c7_capacity.1 snakeId subName 95 1 fullState (by decide)
  · exact c7_capacity.2 snakeId subName Lambda.lambdaSnake 95 1 Lambda.psTen
      (by decide) (by decide) (by decide) 2 (by decide)


/-- C8 (amended): the remote submit path stores the player name truncated to
    10 characters; the local submit path stores the submitted name unchanged
    (truncation happens only in the browser input field, not in this code). -/
theorem c8_amended :
    (∀ (gid name : String) (game : Lambda.LGame) (s now : Int)
        (ps : List Lambda.Payload),
      Lambda.lookupGame gid = some game →
      ps.length ≤ MAX_ENTRIES →
      (Lambda.submitScore gid name s now
          (Lambda.mkDense gid game.scoreType ps)).1.qualified = true →
      ∃ t : Nat,
        (Lambda.submitScore gid name s now
            (Lambda.mkDense gid game.scoreType ps)).1.rank = (t : Int) ∧
        Lambda.applyOps
            (Lambda.submitScore gid name s now
              (Lambda.mkDense gid game.scoreType ps)).2
            (Lambda.storeOfList (Lambda.mkDense gid game.scoreType ps)) t
          = some (Lambda.entryAt gid game.scoreType t
              ⟨name.take 10, s, now⟩)) ∧
    (∀ (gameId playerName : String) (game : Game) (score now : Int)
        (st0 : LState),
      lookupGame gameId = some game →
      (localSubmitScore gameId playerName score now st0).1.qualified = true →
      ∃ k : Nat,
        ((alookup (localSubmitScore gameId playerName score now st0).2
            gameId).getD [])[k]?
          = some ⟨playerName, score, now⟩) := by
  constructor
  · intro gid name game s now ps hg hn hq
    obtain ⟨t, ht1, ht2, ht3, hrank, hfb, hfinal⟩ :=
      Lambda.submit_final_char gid name game s now ps hg hn hq
    refine ⟨t, hrank, ?_⟩
    rw [hfinal t, Lambda.expectedFinal]
    rw [if_neg (by omega), if_pos rfl]
  · intro gameId playerName game score now st0 hg hql
    have hst := lookupGame_scoreType hg
    have hq := qualified_imp_scoreQualifies hg hql
    obtain ⟨i0, hrank, hcases⟩ := getRank_qualified_cases hg hst hq
    have hi0le : i0 ≤ ((alookup st0 gameId).getD []).length := by
      rcases hcases with hfb | ⟨hfb, hlen0, hcap⟩
      · exact Nat.le_of_lt (firstBeat_lt hfb)
      · omega
    have hidx : (getRank gameId score ((alookup st0 gameId).getD [])
        - 1).toNat = i0 := by
      rw [hrank]
      omega
    refine ⟨i0, ?_⟩
    simp only [localSubmitScore, hg, hq, if_true, hidx]
    rw [alookup_aset_self, Option.getD_some]
    have hget := getElem?_spliceInsert (⟨playerName, score, now⟩ : Entry)
      ((alookup st0 gameId).getD []) hi0le i0
    rw [if_neg (by omega), if_pos rfl] at hget
    by_cases htrim : MAX_ENTRIES <
        (spliceInsert i0 (⟨playerName, score, now⟩ : Entry)
          ((alookup st0 gameId).getD [])).length
    · have hi0lt : i0 < ((alookup st0 gameId).getD []).length := by
        rcases hcases with hfb | ⟨hfb, hlen0, hcap⟩
        · exact firstBeat_lt hfb
        · rw [length_spliceInsert] at htrim
          omega
      rw [if_pos htrim,
        getElem?_dropLast _ _ (by rw [length_spliceInsert]; omega)]
      exact hget
    · rw [if_neg htrim]
      exact hget

/-- Witness for C8: an 11-character name submitted remotely lands truncated
    at rank 2 of the final table; submitted locally it is stored unchanged. -/
theorem c8_witness :
    (∃ t : Nat,
      (Lambda.submitScore snakeId longName 95 1
          (Lambda.mkDense snakeId Lambda.lambdaSnake.scoreType
            Lambda.psTen)).1.rank = (t : Int) ∧
      Lambda.applyOps
          (Lambda.submitScore snakeId longName 95 1
            (Lambda.mkDense snakeId Lambda.lambdaSnake.scoreType
              Lambda.psTen)).2
          (Lambda.storeOfList (Lambda.mkDense snakeId
            Lambda.lambdaSnake.scoreType Lambda.psTen)) t
        = some (Lambda.entryAt snakeId Lambda.lambdaSnake.scoreType t
            ⟨longName.take 10, 95, 1⟩)) ∧
    (∃ k : Nat,
      ((alookup (localSubmitScore snakeId longName 95 1 fullState).2
          snakeId).getD [])[k]? = some ⟨longName, 95, 1⟩) :=
  ⟨c8_amended.1 snakeId longName Lambda.lambdaSnake 95 1 Lambda.psTen
      (by decide) (by decide) (by decide),
   c8_amended.2 snakeId longName snakeGame 95 1 fullState (by decide)
      (by decide)⟩

/-- C9 (amended): the remote getAllLeaderboards groups the scanned items by
    category, sorts each group by rank, truncates to 3 and maps every
    configured category with no items to the empty list; the local
    implementation instead returns the stored mapping unchanged, in which
    every configured category is present (initialized empty) but lists are
    not truncated. -/
theorem c9_amended :
    (∀ (items : List Lambda.REntry) (g : String) (game : Lambda.LGame),
      Lambda.lookupGame g = some game →
      alookup (Lambda.getAllLeaderboards items) g
        = some (((Lambda.sortByRank (items.filter
            (fun e => e.gameId == g))).take 3).map Lambda.proj)) ∧
    (∀ st0 : LState, localGetAllLeaderboards st0 = st0) ∧
    (∀ (g : String) (game : Game), lookupGame g = some game →
      alookup (localGetAllLeaderboards initialLeaderboards) g
        = some ([] : List Entry)) := by
  refine ⟨?_, ?_, ?_⟩
  · intro items g game hg
    exact Lambda.getAllLeaderboards_char items g game hg
  · intro st0
    rfl
  · intro g game hg
    rw [lookupGame] at hg
    have h1 : alookup (GAMES.map (fun kv =>
        (kv.1, (fun _ : Game => ([] : List Entry)) kv.2))) g
        = (alookup GAMES g).map (fun _ => []) :=
      alookup_map_values (fun _ : Game => ([] : List Entry)) GAMES g
    rw [hg] at h1
    exact h1

/-- Witness for C9: the remote result over the full snake scan, the local
    identity on a concrete store, and the initialized empty snake list. -/
theorem c9_witness :
    alookup (Lambda.getAllLeaderboards Lambda.snapTen) snakeId
      = some (((Lambda.sortByRank (Lambda.snapTen.filter
          (fun e => e.gameId == snakeId))).take 3).map Lambda.proj) ∧
    localGetAllLeaderboards fullState = fullState ∧
    alookup (localGetAllLeaderboards initialLeaderboards) snakeId
      = some ([] : List Entry) :=
  ⟨c9_amended.1 Lambda.snapTen snakeId Lambda.lambdaSnake (by decide),
   c9_amended.2.1 fullState,
   c9_amended.2.2 snakeId snakeGame (by decide)⟩


/-- An optional mapped list element is present exactly when in range. -/
theorem map_getElem_isSome {l : List γ} {f : γ → δ} {n : Nat} :
    ((l[n]?).map f).isSome = true ↔ n < l.length := by
  cases h : l[n]? with
  | none =>
    simp only [Option.map_none', Option.isSome_none, Bool.false_eq_true,
      false_iff]
    intro hn
    rw [List.getElem?_eq_getElem hn] at h
    cases h
  | some a =>
    simp only [Option.map_some', Option.isSome_some, true_iff]
    exact (List.getElem?_eq_some_iff.mp h).1

/-- C1 (amended): after a qualified submission the stored category stays
    weakly ordered by score with the best entry first; for the remote
    backend the occupied ranks form a dense range 1..m, every stored item's
    rank attribute equals its key, and the scores are weakly ordered along
    the ranks. -/
theorem c1_amended :
    (∀ (gameId name : String) (game : Game) (s now : Int) (st0 : LState),
      lookupGame gameId = some game →
      WeakSortedBy game.scoreType Entry.score ((alookup st0 gameId).getD []) →
      (localSubmitScore gameId name s now st0).1.qualified = true →
      WeakSortedBy game.scoreType Entry.score
        ((alookup (localSubmitScore gameId name s now st0).2 gameId).getD
          [])) ∧
    (∀ (gid name : String) (game : Lambda.LGame) (s now : Int)
        (ps : List Lambda.Payload),
      Lambda.lookupGame gid = some game →
      ps.length ≤ MAX_ENTRIES →
      WeakSortedBy game.scoreType Lambda.Payload.score ps →
      (Lambda.submitScore gid name s now
          (Lambda.mkDense gid game.scoreType ps)).1.qualified = true →
      ∃ m : Nat,
        (∀ r, (Lambda.applyOps
            (Lambda.submitScore gid name s now
              (Lambda.mkDense gid game.scoreType ps)).2
            (Lambda.storeOfList (Lambda.mkDense gid game.scoreType ps))
            r).isSome = true ↔ 1 ≤ r ∧ r ≤ m) ∧
        (∀ r e, Lambda.applyOps
            (Lambda.submitScore gid name s now
              (Lambda.mkDense gid game.scoreType ps)).2
            (Lambda.storeOfList (Lambda.mkDense gid game.scoreType ps)) r
            = some e → e.rank = r) ∧
        (∀ r1 r2 e1 e2, r1 < r2 →
          Lambda.applyOps
            (Lambda.submitScore gid name s now
              (Lambda.mkDense gid game.scoreType ps)).2
            (Lambda.storeOfList (Lambda.mkDense gid game.scoreType ps)) r1
            = some e1 →
          Lambda.applyOps
            (Lambda.submitScore gid name s now
              (Lambda.mkDense gid game.scoreType ps)).2
            (Lambda.storeOfList (Lambda.mkDense gid game.scoreType ps)) r2
            = some e2 →
          beats game.scoreType e2.score e1.score = false)) := by
  constructor
  · intro gameId name game s now st0 hg hw hql
    have hst := lookupGame_scoreType hg
    have hq := qualified_imp_scoreQualifies hg hql
    obtain ⟨i0, hrank, hcases⟩ := getRank_qualified_cases hg hst hq
    have hidx : (getRank gameId s ((alookup st0 gameId).getD [])
        - 1).toNat = i0 := by
      rw [hrank]
      omega
    simp only [localSubmitScore, hg, hq, if_true, hidx]
    rw [alookup_aset_self, Option.getD_some]
    have hins : WeakSortedBy game.scoreType Entry.score
        (spliceInsert i0 (⟨name, s, now⟩ : Entry)
          ((alookup st0 gameId).getD [])) := by
      apply weakSorted_spliceInsert hst hw _ rfl
      rcases hcases with hfb | ⟨hfb, hlen0, hcap⟩
      · exact Or.inl hfb
      · exact Or.inr ⟨hfb, hlen0⟩
    by_cases htrim : MAX_ENTRIES <
        (spliceInsert i0 (⟨name, s, now⟩ : Entry)
          ((alookup st0 gameId).getD [])).length
    · rw [if_pos htrim]
      exact weakSorted_dropLast hins
    · rw [if_neg htrim]
      exact hins
  · intro gid name game s now ps hg hn hwps hq
    obtain ⟨t, ht1, ht2, ht3, hrank, hfb, hfinal⟩ :=
      Lambda.submit_final_char gid name game s now ps hg hn hq
    have hst := lambda_lookupGame_scoreType hg
    have hwg := (List.pairwise_iff_getElem).mp hwps
    have hpair : ∀ (j k : Nat) (pj pk : Lambda.Payload), j < k →
        ps[j]? = some pj → ps[k]? = some pk →
        beats game.scoreType pk.score pj.score = false := by
      intro j k pj pk hjk hpj hpk
      obtain ⟨hj, hje⟩ := List.getElem?_eq_some_iff.mp hpj
      obtain ⟨hk, hke⟩ := List.getElem?_eq_some_iff.mp hpk
      have hR := hwg j k hj hk hjk
      rw [hje, hke] at hR
      exact hR
    have hbef : ∀ j, j < t - 1 → ∀ p : Lambda.Payload, ps[j]? = some p →
        beats game.scoreType s p.score = false := by
      rcases hfb with h | ⟨h, h2⟩
      · exact fun j hj p hp => firstBeat_before h j hj p hp
      · intro j hj p hp
        obtain ⟨hlt2, heq2⟩ := List.getElem?_eq_some_iff.mp hp
        rw [← heq2]
        exact firstBeat_none h _ (List.getElem_mem hlt2)
    have hbeat : t ≤ ps.length → ∃ p : Lambda.Payload,
        ps[t - 1]? = some p ∧ beats game.scoreType s p.score = true := by
      rcases hfb with h | ⟨h, h2⟩
      · intro _
        exact firstBeat_beat h
      · intro hle
        omega
    have hscore : ∀ r e, Lambda.applyOps
        (Lambda.submitScore gid name s now
          (Lambda.mkDense gid game.scoreType ps)).2
        (Lambda.storeOfList (Lambda.mkDense gid game.scoreType ps)) r
        = some e →
        (r = t ∧ e.score = s) ∨
        (1 ≤ r ∧ r < t ∧ ∃ p : Lambda.Payload,
          ps[r - 1]? = some p ∧ e.score = p.score) ∨
        (t < r ∧ r ≤ ps.length + 1 ∧ ∃ p : Lambda.Payload,
          ps[r - 2]? = some p ∧ e.score = p.score) := by
      intro r e he
      rw [hfinal r, Lambda.expectedFinal] at he
      split_ifs at he with h0 hT hLT h4
      · left
        refine ⟨hT, ?_⟩
        rw [← Option.some.inj he]
        rfl
      · right
        left
        obtain ⟨p, hp, hpe⟩ := Option.map_eq_some'.mp he
        exact ⟨by omega, hLT, p, hp, by rw [← hpe]; rfl⟩
      · right
        right
        obtain ⟨p, hp, hpe⟩ := Option.map_eq_some'.mp he
        exact ⟨by omega, h4.1, p, hp, by rw [← hpe]; rfl⟩
    have hmex : ∃ m : Nat, ∀ r, (1 ≤ r ∧ r ≤ m) ↔
        (r = t ∨ (1 ≤ r ∧ r < t) ∨
          (t < r ∧ r ≤ ps.length + 1 ∧ r ≤ MAX_ENTRIES ∧
            ¬(ps.length = MAX_ENTRIES ∧ r = MAX_ENTRIES))) := by
      have htps : t ≤ ps.length ∨ t = ps.length + 1 := by
        rcases hfb with h | ⟨h, h2⟩
        · have := firstBeat_lt h
          omega
        · omega
      by_cases hLen : ps.length < MAX_ENTRIES
      · exact ⟨ps.length + 1, fun r => by omega⟩
      · by_cases hTM : t = MAX_ENTRIES
        · exact ⟨MAX_ENTRIES, fun r => by omega⟩
        · exact ⟨MAX_ENTRIES - 1, fun r => by omega⟩
    obtain ⟨m, hmr⟩ := hmex
    refine ⟨m, ?_, ?_, ?_⟩
    · intro r
      rw [hfinal r, Lambda.expectedFinal, hmr r]
      by_cases h0 : r = 0
      · rw [if_pos h0]
        simp only [Option.isSome_none, Bool.false_eq_true, false_iff]
        omega
      rw [if_neg h0]
      by_cases hT : r = t
      · rw [if_pos hT]
        simp only [Option.isSome_some, true_iff]
        omega
      rw [if_neg hT]
      by_cases hLT : r < t
      · rw [if_pos hLT, map_getElem_isSome]
        omega
      rw [if_neg hLT]
      by_cases h4 : r ≤ ps.length + 1 ∧ r ≤ MAX_ENTRIES ∧
          ¬(ps.length = MAX_ENTRIES ∧ r = MAX_ENTRIES)
      · rw [if_pos h4, map_getElem_isSome]
        omega
      · rw [if_neg h4]
        simp only [Option.isSome_none, Bool.false_eq_true, false_iff]
        omega
    · intro r e he
      rw [hfinal r, Lambda.expectedFinal] at he
      split_ifs at he with h0 hT hLT h4
      · rw [← Option.some.inj he, hT]
        rfl
      · obtain ⟨p, hp, hpe⟩ := Option.map_eq_some'.mp he
        rw [← hpe]
        rfl
      · obtain ⟨p, hp, hpe⟩ := Option.map_eq_some'.mp he
        rw [← hpe]
        rfl
    · intro r1 r2 e1 e2 h12 he1 he2
      rcases hscore r1 e1 he1 with ⟨hr1, hs1⟩ |
        ⟨hr1a, hr1, p1, hp1, hs1⟩ | ⟨hr1, hr1b, p1, hp1, hs1⟩ <;>
        rcases hscore r2 e2 he2 with ⟨hr2, hs2⟩ |
          ⟨hr2a, hr2, p2, hp2, hs2⟩ | ⟨hr2, hr2b, p2, hp2, hs2⟩
      · omega
      · omega
      · rw [hs1, hs2]
        obtain ⟨pB, hpB, hbB⟩ := hbeat (by omega)
        by_cases heq : r2 - 2 = t - 1
        · have hp2B : p2 = pB := by
            rw [heq] at hp2
            exact Option.some.inj (hp2.symm.trans hpB)
          rw [hp2B]
          exact beats_asymm hst hbB
        · have hrel := hpair (t - 1) (r2 - 2) pB p2 (by omega) hpB hp2
          exact beats_shift hst hbB hrel
      · rw [hs1, hs2]
        exact hbef (r1 - 1) (by omega) p1 hp1
      · rw [hs1, hs2]
        exact hpair (r1 - 1) (r2 - 1) p1 p2 (by omega) hp1 hp2
      · rw [hs1, hs2]
        exact hpair (r1 - 1) (r2 - 2) p1 p2 (by omega) hp1 hp2
      · omega
      · omega
      · rw [hs1, hs2]
        exact hpair (r1 - 2) (r2 - 2) p1 p2 (by omega) hp1 hp2

/-- Witness for C1: the snake game accepting 95 locally over the weakly
    sorted three-entry board, and remotely over the full dense snapshot. -/
theorem c1_witness :
    WeakSortedBy snakeGame.scoreType Entry.score
      ((alookup (localSubmitScore snakeId subName 95 7 tieState).2
        snakeId).getD []) ∧
    (∃ m : Nat,
      (∀ r, (Lambda.applyOps
          (Lambda.submitScore snakeId subName 95 1
            (Lambda.mkDense snakeId Lambda.lambdaSnake.scoreType
              Lambda.psTen)).2
          (Lambda.storeOfList (Lambda.mkDense snakeId
            Lambda.lambdaSnake.scoreType Lambda.psTen))
          r).isSome = true ↔ 1 ≤ r ∧ r ≤ m) ∧
      (∀ r e, Lambda.applyOps
          (Lambda.submitScore snakeId subName 95 1
            (Lambda.mkDense snakeId Lambda.lambdaSnake.scoreType
              Lambda.psTen)).2
          (Lambda.storeOfList (Lambda.mkDense snakeId
            Lambda.lambdaSnake.scoreType Lambda.psTen)) r
          = some e → e.rank = r) ∧
      (∀ r1 r2 e1 e2, r1 < r2 →
        Lambda.applyOps
          (Lambda.submitScore snakeId subName 95 1
            (Lambda.mkDense snakeId Lambda.lambdaSnake.scoreType
              Lambda.psTen)).2
          (Lambda.storeOfList (Lambda.mkDense snakeId
            Lambda.lambdaSnake.scoreType Lambda.psTen)) r1
          = some e1 →
        Lambda.applyOps
          (Lambda.submitScore snakeId subName 95 1
            (Lambda.mkDense snakeId Lambda.lambdaSnake.scoreType
              Lambda.psTen)).2
          (Lambda.storeOfList (Lambda.mkDense snakeId
            Lambda.lambdaSnake.scoreType Lambda.psTen)) r2
          = some e2 →
        beats Lambda.lambdaSnake.scoreType e2.score e1.score = false)) :=
  ⟨c1_amended.1 snakeId subName snakeGame 95 7 tieState (by decide)
      (by decide) (by decide),
   c1_amended.2 snakeId subName Lambda.lambdaSnake 95 1 Lambda.psTen
      (by decide) (by decide) (by decide) (by decide)⟩

end ThomasGames
